import Mathlib

/-!
Shallow embedding of the guruguru-cache store/restore pipeline
(src/cmd/store.go, src/cmd/restore.go) for checking the repository's
specification.  Paths are Go strings; file contents are character lists.
All definitions are executable so claims can be evaluated on the concrete
fixtures used by the repository's own tests.
-/

namespace GuruCache

/-- Characters of a string.  Go strings are byte sequences; the repository
only handles ASCII path and content bytes, for which characters and bytes
coincide. -/
def strChars (s : String) : List Char := s.data

/-- Build a string back from characters. -/
def strOfChars (cs : List Char) : String := String.mk cs

/-- Length of a string in characters (equals Go byte length on ASCII). -/
def strLen (s : String) : Nat := s.data.length

/-- Drop the first n characters, as Go string slicing s[n:] does on ASCII. -/
def strDrop (s : String) (n : Nat) : String := strOfChars (s.data.drop n)

/-- Whether the character list p is an initial segment of s. -/
def listStartsWith : List Char → List Char → Bool
  | [], _ => true
  | _ :: _, [] => false
  | p :: ps, c :: cs => if p = c then listStartsWith ps cs else false

/-- Go strings.HasPrefix. -/
def strStartsWith (p s : String) : Bool := listStartsWith p.data s.data

/-- Split on the slash character, keeping the produced segments. -/
def splitSlashAux : List Char → List Char → List String
  | [], cur => [strOfChars cur.reverse]
  | c :: rest, cur =>
    if c = '/' then strOfChars cur.reverse :: splitSlashAux rest []
    else splitSlashAux rest (c :: cur)

/-- Path components of a slash-separated path, empty segments dropped
(so both "a//b" and "/a/b" yield the same component list). -/
def splitSlash (s : String) : List String :=
  (splitSlashAux s.data []).filter (fun c => c ≠ "")

/-- Component processing of Go filepath.Clean: drop ".", resolve ".."
against the previous component, keep leading ".." only on relative paths.
The first argument is the reversed stack of components kept so far. -/
def cleanCompsAux (abs : Bool) : List String → List String → List String
  | stack, [] => stack.reverse
  | stack, c :: cs =>
    if c = "." then cleanCompsAux abs stack cs
    else if c = ".." then
      match stack with
      | [] => if abs then cleanCompsAux abs [] cs else cleanCompsAux abs [".."] cs
      | top :: rest =>
        if top = ".." then cleanCompsAux abs (".." :: top :: rest) cs
        else cleanCompsAux abs rest cs
    else cleanCompsAux abs (c :: stack) cs

/-- Join components with slashes. -/
def joinComps : List String → String
  | [] => ""
  | [c] => c
  | c :: cs => c ++ "/" ++ joinComps cs

/-- Render a cleaned component list as Go filepath.Clean renders it. -/
def renderPath (abs : Bool) (comps : List String) : String :=
  match comps with
  | [] => if abs then "/" else "."
  | _ :: _ => if abs then "/" ++ joinComps comps else joinComps comps

/-- Go filepath.IsAbs on slash paths. -/
def goIsAbs (s : String) : Bool :=
  match s.data with
  | '/' :: _ => true
  | _ => false

/-- Go filepath.Clean. -/
def goClean (s : String) : String :=
  renderPath (goIsAbs s) (cleanCompsAux (goIsAbs s) [] (splitSlash s))

/-- Go filepath.Join of two elements: concatenation with a slash, then
Clean; empty elements are skipped. -/
def goJoin (a b : String) : String :=
  if a = "" then (if b = "" then "" else goClean b)
  else if b = "" then goClean a
  else goClean (a ++ "/" ++ b)

/-- Go filepath.Dir: all but the last component, cleaned.  Coincides with
filepath.Dir on slash-normalized inputs (the only paths this pipeline
produces). -/
def goDir (s : String) : String :=
  renderPath (goIsAbs s) (cleanCompsAux (goIsAbs s) [] (splitSlash s).dropLast)

/-- Go filepath.Base on slash-normalized inputs. -/
def goBase (s : String) : String :=
  if s = "" then "."
  else
    match (splitSlash s).getLast? with
    | some c => c
    | none => if goIsAbs s then "/" else "."

/-- Go fmt.Sprintf "%04d": decimal digits left-padded with zeros to
width four (wider numbers are printed in full). -/
def fourDigits (i : Nat) : String :=
  let ds := Nat.toDigits 10 i
  strOfChars (List.replicate (4 - ds.length) '0' ++ ds)

/-- Index of the first occurrence of pat inside the character list, if any. -/
def findSubAux : List Char → List Char → Nat → Option Nat
  | [], pat, i => if pat = [] then some i else none
  | c :: rest, pat, i =>
    if listStartsWith pat (c :: rest) then some i else findSubAux rest pat i.succ

/-- Go strings.Replace with count 1: splice repl over the first occurrence
of pat. -/
def replaceFirst (s pat repl : String) : String :=
  match findSubAux s.data pat.data 0 with
  | none => s
  | some i => strOfChars (s.data.take i ++ repl.data ++ s.data.drop (i + pat.data.length))

/-- Byte-order comparison of names, as Go's sort over ReadDir entries uses.
UTF-8 byte order equals codepoint order. -/
def charListLt : List Char → List Char → Bool
  | [], [] => false
  | [], _ :: _ => true
  | _ :: _, [] => false
  | a :: as, b :: bs =>
    if a.val < b.val then true else if b.val < a.val then false else charListLt as bs

/-- Name order used when sorting directory listings. -/
def strLtB (a b : String) : Bool := charListLt a.data b.data

/-- A filesystem tree: regular files carry content and permission bits
(as Go os.FileMode perm, e.g. 420 = 0644), directories carry named
children, symbolic links carry their target string. -/
inductive FsNode where
  | file (content : List Char) (mode : Nat)
  | dir (entries : List (String × FsNode))
  | symlink (target : String)

mutual

/-- Descend from a node along components without following symlinks
(the final node is returned as stored, like os.Lstat). -/
def lookupRaw : FsNode → List String → Option FsNode
  | node, [] => some node
  | FsNode.dir es, c :: rest => lookupInEntries es c rest
  | FsNode.file _ _, _ :: _ => none
  | FsNode.symlink _, _ :: _ => none

/-- Helper of lookupRaw: find the child named c, then continue. -/
def lookupInEntries : List (String × FsNode) → String → List String → Option FsNode
  | [], _, _ => none
  | (n, node) :: es, c, rest =>
    if n = c then lookupRaw node rest else lookupInEntries es c rest

end

/-- Kernel-style normalization of root-relative components: ".." pops the
previous component and is dropped at the root, as path resolution does.
The first argument is the reversed stack of components kept so far. -/
def normalizeComps : List String → List String → List String
  | stack, [] => stack.reverse
  | stack, c :: cs =>
    if c = "." ∨ c = "" then normalizeComps stack cs
    else if c = ".." then normalizeComps (stack.drop 1) cs
    else normalizeComps (c :: stack) cs

/-- Resolve a component list against the tree, following symbolic links in
every position (as open(2)/stat(2) do).  The fuel bounds link traversal;
exhaustion models the kernel's ELOOP failure on link cycles.  acc is the
already-resolved directory prefix. -/
def resolveComps : Nat → FsNode → List String → List String → Option (List String)
  | 0, _, _, _ => none
  | _ + 1, _, acc, [] => some acc
  | fuel + 1, root, acc, c :: rest =>
    match lookupRaw root (acc ++ [c]) with
    | none => none
    | some (FsNode.symlink t) =>
      let base := if goIsAbs t then [] else acc
      resolveComps fuel root [] (normalizeComps [] (base ++ splitSlash t) ++ rest)
    | some _ => resolveComps fuel root (acc ++ [c]) rest

/-- Node reached by os.Open / os.Stat on the given path: full resolution
with symlinks followed.  The model's root stands for the process working
directory; only relative paths are exercised. -/
def osOpenStat (root : FsNode) (p : String) : Option FsNode :=
  match resolveComps 1000 root [] (splitSlash (goClean p)) with
  | none => none
  | some comps => lookupRaw root comps

/-- Insert an entry into a name-sorted listing. -/
def insertByName (e : String × FsNode) : List (String × FsNode) → List (String × FsNode)
  | [] => [e]
  | f :: fs => if strLtB e.1 f.1 then e :: f :: fs else f :: insertByName e fs

/-- Directory listing sorted by name, as ioutil.ReadDir returns it. -/
def sortEntries (es : List (String × FsNode)) : List (String × FsNode) :=
  es.foldr insertByName []

/-- One archive record as written by tar.Writer.WriteHeader plus the copied
body.  createTar in src/cmd/store.go fills only Name, Mode and Size of
tar.Header, so Typeflag stays 0 and Linkname stays empty on every entry it
writes. -/
structure TarEntry where
  name : String
  mode : Nat
  size : Nat
  typeflag : Nat
  linkname : String
  content : List Char
  deriving DecidableEq

/-- Entry name rewriting of createTar (src/cmd/store.go lines 140-145):
for an absolute input path the parent directory string is removed from the
target path by strings.Replace with count 1; for a relative input path the
whole walk path (relative to the working directory) is joined after the
index prefix. -/
def childPathOf (i : Nat) (path : String) (targetFilePath : String) : String :=
  if goIsAbs path then goJoin (fourDigits i) (replaceFirst targetFilePath (goDir path) "")
  else goJoin (fourDigits i) targetFilePath

/-- The walk callback of createTar (src/cmd/store.go lines 128-161):
os.Open the entry (following symlinks), file.Stat (stat of the opened
target), then write a header made only of the rewritten name, the stat
mode and the stat size, followed by the opened file's bytes.  A symbolic
link is therefore archived as a regular entry holding its target file's
stat data and content.  Opening a directory through a link would make the
subsequent io.Copy fail; that error path is modelled without the partially
written header, and is not exercised by any claim. -/
def tarCallback (root : FsNode) (i : Nat) (origPath baseDir name : String) :
    Except String TarEntry :=
  let targetFilePath := goJoin baseDir name
  match osOpenStat root targetFilePath with
  | none => Except.error "failed to open"
  | some (FsNode.file content mode) =>
    Except.ok { name := childPathOf i origPath targetFilePath, mode := mode,
                size := content.length, typeflag := 0, linkname := "", content := content }
  | some _ => Except.error "failed to write file"

/-- dirwalk's loop body (src/cmd/store.go lines 282-293) over a sorted
listing: directories recurse with the extended base path, everything else
goes to the callback; the first error stops the walk of this tree and is
returned together with the entries already written to the tar stream.
The fuel only bounds recursion depth for termination and exceeds every
tree used in evaluation. -/
def walkEntries :
    Nat → FsNode → Nat → String → String → List (String × FsNode) →
    List TarEntry × Option String
  | 0, _, _, _, _, _ => ([], some "fuel exhausted")
  | _ + 1, _, _, _, _, [] => ([], none)
  | fuel + 1, root, i, origPath, baseDir, (name, node) :: rest =>
    match node with
    | FsNode.dir sub =>
      let next := goJoin baseDir name
      let r := walkEntries fuel root i origPath next (sortEntries sub)
      match r.2 with
      | some e => (r.1, some e)
      | none =>
        let r2 := walkEntries fuel root i origPath baseDir rest
        (r.1 ++ r2.1, r2.2)
    | _ =>
      match tarCallback root i origPath baseDir name with
      | Except.ok entry =>
        let r2 := walkEntries fuel root i origPath baseDir rest
        (entry :: r2.1, r2.2)
      | Except.error e => ([], some e)

/-- dirwalk on one input path (src/cmd/store.go lines 263-296): os.Stat
the target (following symlinks), then ReadDir it; a stat failure or a
non-directory target yields an error and no entries (ReadDir fails on a
file, so a plain-file input path archives nothing). -/
def dirwalkTop (fuel : Nat) (root : FsNode) (i : Nat) (path : String) :
    List TarEntry × Option String :=
  match osOpenStat root path with
  | none => ([], some "failed to stat file")
  | some (FsNode.dir entries) => walkEntries fuel root i path path (sortEntries entries)
  | some _ => ([], some "failed to open directory")

/-- JSON string escaping for the manifest body (quote and backslash; the
paths exercised here contain neither). -/
def jsonEscape : List Char → List Char
  | [] => []
  | c :: cs => if c = '"' ∨ c = '\\' then '\\' :: c :: jsonEscape cs else c :: jsonEscape cs

/-- A JSON string literal. -/
def jsonQuote (s : String) : String := "\"" ++ strOfChars (jsonEscape s.data) ++ "\""

/-- Comma-separated JSON string literals. -/
def jsonStrList : List String → String
  | [] => ""
  | [p] => jsonQuote p
  | p :: ps => jsonQuote p ++ "," ++ jsonStrList ps

/-- Modelled from the spec: the `metadata` struct serialized by
json.Marshal in createTar is referenced but not defined under src/; per
the spec the manifest body is `\x7b"paths": [...]\x7d` holding the original
path strings in order, matching the repository test's expected literal. -/
def metadataJSONStr (paths : List String) : String :=
  "\x7b\"paths\":[" ++ jsonStrList paths ++ "]\x7d"

/-- The trailing archive entry createTar writes for the manifest
(src/cmd/store.go lines 177-188): name metadata.json, mode 0600, the JSON
bytes as content. -/
def metadataEntry (paths : List String) : TarEntry :=
  { name := "metadata.json", mode := 384, size := strLen (metadataJSONStr paths),
    typeflag := 0, linkname := "", content := (metadataJSONStr paths).data }

/-- The path loop of createTar (src/cmd/store.go lines 125-162): each path
is appended to the manifest, then walked; the value returned by dirwalk is
discarded at line 128, so walk errors neither stop the loop nor reach the
caller, while entries already written remain in the stream. -/
def createTarLoop (fuel : Nat) (root : FsNode) :
    List String → Nat → List TarEntry → List String → List TarEntry × List String
  | [], _, es, mp => (es, mp)
  | p :: rest, i, es, mp =>
    let w := dirwalkTop fuel root i p
    createTarLoop fuel root rest (i + 1) (es ++ w.1) (mp ++ [p])

/-- createTar (src/cmd/store.go lines 102-191) over an in-memory tree:
walk every input path in order (walk errors discarded), then append the
manifest as the final entry and return nil.  Working-directory I/O
failures (tar file creation, flush, metadata write) depend on external
state and do not arise in the in-memory model, so the returned error,
faithful to the remaining code, is always none. -/
def createTar (fuel : Nat) (root : FsNode) (paths : List String) :
    List TarEntry × Option String :=
  let r := createTarLoop fuel root paths 0 [] []
  (r.1 ++ [metadataEntry r.2], none)

/-- Output of compressGzip (src/cmd/store.go lines 193-224): the archive
stream wrapped in one gzip pass.  The DEFLATE byte encoding itself is the
library's; the model keeps the lossless payload. -/
structure GzData where
  data : List TarEntry
  deriving DecidableEq

/-- compressGzip as a stream wrapper. -/
def compressGzip (es : List TarEntry) : GzData := ⟨es⟩

/-- gzip.NewReader's inverse pass used by extractCache. -/
def gunzip (g : GzData) : List TarEntry := g.data

/-- What a path can hold in the flat view of a filesystem used for
extraction and relocation targets. -/
inductive DestEntry where
  | file (content : List Char)
  | symlink (target : String)
  | dir
  deriving DecidableEq

/-- Flat filesystem view: association list from slash path to entry,
first binding wins.  Directories appear implicitly as parents of keys and
explicitly when empty. -/
abbrev FlatFs : Type := List (String × DestEntry)

/-- First binding for a key. -/
def lookupFlat : FlatFs → String → Option DestEntry
  | [], _ => none
  | (k, v) :: fs, q => if k = q then some v else lookupFlat fs q

/-- Replace the first binding for a key, or append a new one. -/
def updateFlat : FlatFs → String → DestEntry → FlatFs
  | [], k, v => [(k, v)]
  | (k0, v0) :: fs, k, v =>
    if k0 = k then (k0, v) :: fs else (k0, v0) :: updateFlat fs k v

/-- One entry of the extraction loop of extractCache (src/cmd/restore.go
lines 168-193): the parent directories are created, then the target is
opened with O_CREATE|O_RDWR — no truncation — and the entry body is copied
from offset zero, so an existing longer file keeps its tail bytes.  The
header type is never consulted: every entry, whatever its typeflag, is
materialized as a regular file. -/
def extractOne (fs : FlatFs) (e : TarEntry) : FlatFs :=
  let fresh :=
    match lookupFlat fs e.name with
    | some (DestEntry.file old) => e.content ++ old.drop e.content.length
    | _ => e.content
  updateFlat fs e.name (DestEntry.file fresh)

/-- extractCache's tar loop (src/cmd/restore.go lines 143-194) over the
decompressed entries, writing under the destination root. -/
def extractCache (fs : FlatFs) (es : List TarEntry) : FlatFs :=
  es.foldl extractOne fs

/-- Body of a JSON string literal after its opening quote: read until the
closing quote, unescaping backslash pairs. -/
def parseStrBody : List Char → List Char → Option (String × List Char)
  | [], _ => none
  | c :: cs, acc =>
    if c = '"' then some (strOfChars acc.reverse, cs)
    else if c = '\\' then
      match cs with
      | [] => none
      | d :: ds => parseStrBody ds (d :: acc)
    else parseStrBody cs (c :: acc)

/-- The closing brace character, spelled by code point. -/
def rbraceChar : Char := Char.ofNat 125

/-- Elements of the manifest's path array up to the closing bracket and
brace.  The fuel is the remaining input length. -/
def parsePathsArr : Nat → List Char → List String → Option (List String)
  | 0, _, _ => none
  | fuel + 1, cs, acc =>
    match cs with
    | [] => none
    | c :: rest =>
      if c = ']' then (if rest = [rbraceChar] then some acc.reverse else none)
      else if c = ',' then parsePathsArr fuel rest acc
      else if c = '"' then
        match parseStrBody rest [] with
        | some (s, rest2) => parsePathsArr fuel rest2 (s :: acc)
        | none => none
      else none

/-- Modelled from the spec: json.Decoder.Decode into the `metadata` struct
(the struct is referenced but not defined under src/); inverts the
spec-mandated body `\x7b"paths": [...]\x7d` back to the path list. -/
def parseMetadata (cs : List Char) : Option (List String) :=
  let pre := ("\x7b\"paths\":[").data
  if listStartsWith pre cs then parsePathsArr cs.length (cs.drop pre.length) []
  else none

/-- Whether key k lies at or below path p, as os.RemoveAll's subtree and
os.Rename's source subtree are delimited. -/
def underPath (p k : String) : Bool := k = p || strStartsWith (p ++ "/") k

/-- os.RemoveAll on the flat view: drop the path and everything below it. -/
def removeAllFlat (fs : FlatFs) (p : String) : FlatFs :=
  fs.filter (fun kv => !(underPath p kv.1))

/-- Source key of the move at index i for original path p:
destinationRoot/(%04d of i)/Base(p), as src/cmd/restore.go line 216. -/
def moveSrcKey (i : Nat) (p : String) : String := goJoin (fourDigits i) (goBase p)

/-- Whether os.Rename's source exists in the extracted tree. -/
def renameSourceExists (destFs : FlatFs) (src : String) : Bool :=
  destFs.any (fun kv => underPath src kv.1)

/-- A successful os.Rename of the extracted subtree onto the original
path: every extracted key at or below src reappears rebased onto p. -/
def renameApply (destFs main : FlatFs) (src p : String) : FlatFs :=
  main ++ destFs.filterMap (fun kv =>
    if kv.1 = src then some (p, kv.2)
    else if strStartsWith (src ++ "/") kv.1 then
      some (p ++ strDrop kv.1 (strLen src), kv.2)
    else none)

/-- One index of the relocation loop (src/cmd/restore.go lines 211-218):
os.RemoveAll the original path, then os.Rename the extracted subtree onto
it; the value returned by os.Rename is discarded at line 217, so a failed
move (modelled by a missing source) leaves only the removal behind. -/
def moveStep (destFs main : FlatFs) (i : Nat) (p : String) : FlatFs :=
  let m1 := removeAllFlat main p
  if renameSourceExists destFs (moveSrcKey i p) then
    renameApply destFs m1 (moveSrcKey i p) p
  else m1

/-- The relocation loop over the decoded manifest, in manifest order. -/
def movePathsGo (destFs : FlatFs) : FlatFs → Nat → List String → FlatFs
  | main, _, [] => main
  | main, i, p :: rest => movePathsGo destFs (moveStep destFs main i p) (i + 1) rest

/-- moveToOriginalPaths (src/cmd/restore.go lines 196-221): open and
decode destinationRoot/metadata.json (a missing or undecodable manifest is
a fatal exit, modelled as none), then run the relocation loop against the
working tree. -/
def moveToOriginalPaths (destFs main : FlatFs) : Option FlatFs :=
  match lookupFlat destFs "metadata.json" with
  | some (DestEntry.file s) => (parseMetadata s).map (fun paths => movePathsGo destFs main 0 paths)
  | _ => none

/-- The selection loop of getPartiallyMatchedItem (src/cmd/restore.go
lines 111-122): result starts nil and latest starts at the zero time
value; an object replaces the current best exactly when latest.Before its
LastModified, i.e. on a strictly greater timestamp. -/
def scanBest : List (String × Nat) → Option (String × Nat) → Nat → Option (String × Nat)
  | [], best, _ => best
  | o :: os, best, latest =>
    if latest < o.2 then scanBest os (some o) o.2 else scanBest os best latest

/-- getPartiallyMatchedItem's choice among the prefix-listing results,
each given as (key, last-modified timestamp); timestamps are instants on
the time.Time axis with 0 the zero value. -/
def getPartiallyMatchedItem (objs : List (String × Nat)) : Option (String × Nat) :=
  scanBest objs none 0

/-- Greatest last-modified timestamp in a listing (0 when empty). -/
def maxTs : List (String × Nat) → Nat
  | [] => 0
  | o :: os => max o.2 (maxTs os)

/-- Outcomes of the steps of storeCmd.Run (src/cmd/store.go lines 37-72)
that depend on the outside world: template evaluation, the S3 existence
probe, temp-directory creation, and the three pipeline stages (some err
means the step failed). -/
structure StoreEnv where
  templateResult : Except String String
  existsResult : Except String Bool
  tempDirResult : Except String String
  createTarFail : Option String
  compressFail : Option String
  uploadFail : Option String

/-- How an invocation ends. -/
inductive ExitKind where
  | normal
  | fatal
  deriving DecidableEq

/-- Observable end state of one command invocation: how it exited,
whether its temporary directory was created, and whether that directory
was removed before the process ended. -/
structure RunOutcome where
  exit : ExitKind
  tempDirCreated : Bool
  tempDirRemoved : Bool
  deriving DecidableEq

/-- storeCmd.Run (src/cmd/store.go lines 37-72) under Go semantics:
log.Fatal calls os.Exit, and os.Exit terminates the process without
running deferred functions, so the deferred os.RemoveAll at line 59 runs
only when Run returns normally. -/
def storeRun (env : StoreEnv) : RunOutcome :=
  match env.templateResult with
  | Except.error _ => ⟨ExitKind.fatal, false, false⟩
  | Except.ok _ =>
    match env.existsResult with
    | Except.error _ => ⟨ExitKind.fatal, false, false⟩
    | Except.ok true => ⟨ExitKind.normal, false, false⟩
    | Except.ok false =>
      match env.tempDirResult with
      | Except.error _ => ⟨ExitKind.fatal, false, false⟩
      | Except.ok _ =>
        match env.createTarFail with
        | some _ => ⟨ExitKind.fatal, true, false⟩
        | none =>
          match env.compressFail with
          | some _ => ⟨ExitKind.fatal, true, false⟩
          | none =>
            match env.uploadFail with
            | some _ => ⟨ExitKind.fatal, true, false⟩
            | none => ⟨ExitKind.normal, true, true⟩

/-! Fixtures.  fixtureFs is the tree built by setupFixturesToCache in
src/cmd/store_test.go: tmp/foo holds hoge.txt ("This is foo!") and the
symlink bar/baz/link -> ../../hoge.txt, and tmp/abc/def holds the empty
directory ghe. -/

/-- The repository test fixture tree, rooted at the working directory. -/
def fixtureFs : FsNode :=
  FsNode.dir [("tmp", FsNode.dir [
    ("abc", FsNode.dir [("def", FsNode.dir [("ghe", FsNode.dir [])])]),
    ("foo", FsNode.dir [
      ("bar", FsNode.dir [("baz", FsNode.dir [("link", FsNode.symlink "../../hoge.txt")])]),
      ("hoge.txt", FsNode.file "This is foo!".data 420)])])]

/-- The fixture tree in the flat view, as the working tree a restore runs
against (same layout assertFixtures checks). -/
def fixtureMainFs : FlatFs :=
  [("tmp/foo/hoge.txt", DestEntry.file "This is foo!".data),
   ("tmp/foo/bar/baz/link", DestEntry.symlink "../../hoge.txt"),
   ("tmp/abc/def/ghe", DestEntry.dir)]

/-- Destination tree after store plus extract of the fixture archive:
the full store-restore pipeline up to relocation. -/
def c1DestFs : FlatFs :=
  extractCache [] (gunzip (compressGzip
    (createTar 20 fixtureFs ["tmp/foo", "tmp/abc/def"]).1))

/-- Tree whose first input path holds only a dangling symbolic link, so
the walk of path 0 fails at os.Open, while path 1 walks fine. -/
def c3Fs : FsNode :=
  FsNode.dir [("a", FsNode.dir [("broken", FsNode.symlink "nope")]),
              ("b", FsNode.dir [("f", FsNode.file "hi".data 420)])]

/-- Minimal tree for the entry-naming claim: a relative input path two
components deep. -/
def c6Fs : FsNode :=
  FsNode.dir [("tmp", FsNode.dir [("foo", FsNode.dir
    [("hoge.txt", FsNode.file "x".data 420)])])]

/-- A symlink-typed archive entry (typeflag 50 is tar's '2'). -/
def c5SymlinkEntry : TarEntry :=
  { name := "0000/foo/link", mode := 511, size := 0, typeflag := 50,
    linkname := "../../t", content := [] }

/-- A directory-typed archive entry (typeflag 53 is tar's '5'). -/
def c5DirEntry : TarEntry :=
  { name := "0001/def/ghe", mode := 493, size := 0, typeflag := 53,
    linkname := "", content := [] }

/-- Extracted tree for the relocation counterexample: only index 1's
subtree is present, so the move at index 0 has no source. -/
def c9DestFs : FlatFs := [("0001/b", DestEntry.file "NEW".data)]

/-- Working tree for the relocation counterexample. -/
def c9MainFs : FlatFs :=
  [("a", DestEntry.file "A".data), ("b", DestEntry.file "OLD".data)]

/-- Store environment in which every step up to createTar succeeds and
createTar fails. -/
def c2EnvFail : StoreEnv :=
  { templateResult := Except.ok "key", existsResult := Except.ok false,
    tempDirResult := Except.ok "/tmp/x", createTarFail := some "failed to create tar",
    compressFail := none, uploadFail := none }

/-- Store environment in which every step succeeds. -/
def c2EnvOk : StoreEnv :=
  { templateResult := Except.ok "key", existsResult := Except.ok false,
    tempDirResult := Except.ok "/tmp/x", createTarFail := none,
    compressFail := none, uploadFail := none }

/-! Helper lemmas. -/

/-- Every listed timestamp is bounded by the listing's maximum. -/
theorem maxTs_le_of_mem {os : List (String × Nat)} {o : String × Nat}
    (h : o ∈ os) : o.2 ≤ maxTs os := by
  induction os with
  | nil => cases h
  | cons a os ih =>
    rcases List.mem_cons.mp h with rfl | h2
    · exact Nat.le_max_left _ _
    · exact Nat.le_trans (ih h2) (Nat.le_max_right _ _)

/-- scanBest never replaces its best when no timestamp beats latest. -/
theorem scanBest_stay (os : List (String × Nat)) (best : Option (String × Nat))
    (latest : Nat) (h : ∀ o ∈ os, o.2 ≤ latest) : scanBest os best latest = best := by
  induction os generalizing best latest with
  | nil => rfl
  | cons a os ih =>
    have ha : a.2 ≤ latest := h a (List.mem_cons_self a os)
    have hlt : ¬ latest < a.2 := Nat.not_lt.mpr ha
    simp only [scanBest, if_neg hlt]
    exact ih best latest (fun o ho => h o (List.mem_cons_of_mem a ho))

/-- find? on a cons, phrased with an if for easy case rewriting. -/
theorem find?_cons_if (p : String × Nat → Bool) (a : String × Nat)
    (l : List (String × Nat)) :
    List.find? p (a :: l) = if p a then some a else List.find? p l := by
  cases h : p a <;> simp [List.find?, h]

/-- When some timestamp beats latest, scanBest ends on the first entry
carrying the maximal timestamp: replacement needs a strictly greater
stamp, so the earliest maximal entry wins ties. -/
theorem scanBest_find (os : List (String × Nat)) (best : Option (String × Nat))
    (latest : Nat) (h : latest < maxTs os) :
    scanBest os best latest = os.find? (fun o => decide (maxTs os ≤ o.2)) := by
  induction os generalizing best latest with
  | nil => exact absurd h (Nat.not_lt_zero latest)
  | cons a os ih =>
    rw [find?_cons_if]
    rcases Nat.le_total (maxTs os) a.2 with hA | hA
    · have hMax : maxTs (a :: os) = a.2 := by
        simp [maxTs, Nat.max_eq_left hA]
      have hTrue : maxTs (a :: os) ≤ a.2 := le_of_eq hMax
      rw [if_pos (by simpa using hTrue)]
      have hl : latest < a.2 := hMax ▸ h
      simp only [scanBest, if_pos hl]
      exact scanBest_stay os (some a) a.2
        (fun o ho => Nat.le_trans (maxTs_le_of_mem ho) hA)
    · have hMax : maxTs (a :: os) = maxTs os := by
        simp [maxTs, Nat.max_eq_right hA]
      by_cases hEq : maxTs os ≤ a.2
      · have hA2 : a.2 = maxTs os := Nat.le_antisymm hA hEq
        have hTrue : maxTs (a :: os) ≤ a.2 := by rw [hMax]; exact hEq
        rw [if_pos (by simpa using hTrue)]
        have hl : latest < a.2 := by rw [hA2, ← hMax]; exact h
        simp only [scanBest, if_pos hl]
        exact scanBest_stay os (some a) a.2
          (fun o ho => hA2 ▸ maxTs_le_of_mem ho)
      · have hFalse : ¬ maxTs (a :: os) ≤ a.2 := by rw [hMax]; exact hEq
        rw [if_neg (by simpa using hFalse), hMax]
        have hOs : a.2 < maxTs os := Nat.lt_of_not_le hEq
        by_cases hl : latest < a.2
        · simp only [scanBest, if_pos hl]
          exact ih (some a) a.2 hOs
        · simp only [scanBest, if_neg hl]
          exact ih best latest (hMax ▸ h)

/-- The manifest accumulated by createTar's loop is the accumulator
followed by the remaining paths: walking results never touch it. -/
theorem createTarLoop_manifest (fuel : Nat) (root : FsNode) (ps : List String)
    (i : Nat) (es : List TarEntry) (mp : List String) :
    (createTarLoop fuel root ps i es mp).2 = mp ++ ps := by
  induction ps generalizing i es mp with
  | nil => simp [createTarLoop]
  | cons p rest ih => simp [createTarLoop, ih]

/-- Looking up a key right after updating it yields the new value. -/
theorem lookupFlat_updateFlat (fs : FlatFs) (k : String) (v : DestEntry) :
    lookupFlat (updateFlat fs k v) k = some v := by
  induction fs with
  | nil => simp [updateFlat, lookupFlat]
  | cons kv fs ih =>
    by_cases hk : kv.1 = k
    · simp [updateFlat, lookupFlat, hk]
    · simp [updateFlat, lookupFlat, hk, ih]

/-! Claim theorems. -/

/-- Claim C1: archiving, compressing, extracting into a fresh root and
relocating by the manifest is claimed to reproduce the original tree
byte-identically, with symlink targets and empty directories preserved.
On the repository's own test fixture the pipeline instead erases the
tree: createTar archives the symlink as a regular entry named with the
full working-directory-relative path and drops directories, so the
relocation's rename sources destinationRoot/0000/foo and
destinationRoot/0001/def do not exist; every original path is removed and
os.Rename's failure is ignored, leaving an empty tree where the original
had a file, a symlink and an empty directory. -/
theorem c1_roundtrip_fails :
    moveToOriginalPaths c1DestFs fixtureMainFs = some []
  ∧ lookupFlat fixtureMainFs "tmp/foo/hoge.txt" = some (DestEntry.file "This is foo!".data)
  ∧ lookupFlat fixtureMainFs "tmp/foo/bar/baz/link" = some (DestEntry.symlink "../../hoge.txt")
  ∧ lookupFlat fixtureMainFs "tmp/abc/def/ghe" = some DestEntry.dir :=
  ⟨rfl, rfl, rfl, rfl⟩

/-- Claim C2: the temporary working directory is claimed removed on every
exit path.  Removal relies on a deferred os.RemoveAll, but every failure
after its creation exits through log.Fatal, i.e. os.Exit, which skips
deferred calls: when createTar fails the directory was created and is
never removed, while the all-success path does remove it. -/
theorem c2_tempdir_kept_on_fatal_exit :
    storeRun c2EnvFail = ⟨ExitKind.fatal, true, false⟩
  ∧ storeRun c2EnvOk = ⟨ExitKind.normal, true, true⟩ :=
  ⟨rfl, rfl⟩

/-- Claim C3: a read or stat failure while archiving is claimed to abort
createTar with a non-nil error before any later input path is processed.
createTar discards dirwalk's return value (src/cmd/store.go line 128):
with a dangling symlink under path 0 the walk of path 0 errors, yet path
1 is still archived and createTar reports no error. -/
theorem c3_walk_error_discarded :
    (dirwalkTop 10 c3Fs 0 "a").2 = some "failed to open"
  ∧ createTar 10 c3Fs ["a", "b"] =
      ([{ name := "0001/b/f", mode := 420, size := 2, typeflag := 0,
          linkname := "", content := "hi".data },
        metadataEntry ["a", "b"]], none) :=
  ⟨rfl, rfl⟩

/-- Claim C4: headers are claimed to carry the entry's own mode, size 0
for directories and symlinks, and the link target for symlinks.  On the
fixture the symlink entry instead carries the followed target's stat data:
size 12 with the target file's bytes as content, an empty linkname, and no
directory entry is written at all (the fixture's directories bar, baz and
ghe produce no header). -/
theorem c4_header_fields_diverge :
    (createTar 20 fixtureFs ["tmp/foo"]).1.map
        (fun e => (e.name, e.size, e.linkname, e.typeflag)) =
      [("0000/tmp/foo/bar/baz/link", 12, "", 0),
       ("0000/tmp/foo/hoge.txt", 12, "", 0),
       ("metadata.json", 21, "", 0)]
  ∧ (createTar 20 fixtureFs ["tmp/foo"]).1.head? =
      some { name := "0000/tmp/foo/bar/baz/link", mode := 420, size := 12,
             typeflag := 0, linkname := "", content := "This is foo!".data } :=
  ⟨rfl, rfl⟩

/-- Claim C5: extraction is claimed to materialize each entry according
to its type.  extractCache never consults the header type
(src/cmd/restore.go line 183 opens every target as a plain file): a
symlink-typed entry and a directory-typed entry both come out as regular
files with empty content, not as a symlink or a directory. -/
theorem c5_every_entry_becomes_regular_file :
    extractCache [] [c5SymlinkEntry, c5DirEntry] =
      [("0000/foo/link", DestEntry.file []),
       ("0001/def/ghe", DestEntry.file [])] :=
  rfl

/-- Claim C6: entry names are claimed to be the index prefix plus the
path relative to the input path's parent directory.  For the relative
input path tmp/foo the code joins the full working-directory-relative
walk path instead (src/cmd/store.go line 144), producing
0000/tmp/foo/hoge.txt where the claim requires 0000/foo/hoge.txt (which
the repository's own test expects). -/
theorem c6_relative_names_keep_cwd_path :
    ((createTar 10 c6Fs ["tmp/foo"]).1.map (fun e => e.name)) =
      ["0000/tmp/foo/hoge.txt", "metadata.json"]
  ∧ ((createTar 10 c6Fs ["tmp/foo"]).1.map (fun e => e.name)).contains
      "0000/foo/hoge.txt" = false :=
  ⟨rfl, rfl⟩

/-- Claim C7, counterexample: the claim promises a selection from every
non-empty listing, but the scan starts from the zero time value and
replaces only on a strictly greater timestamp, so a listing whose only
entry bears the zero timestamp selects nothing. -/
theorem c7_zero_timestamp_selects_nothing :
    getPartiallyMatchedItem [("k", 0)] = none :=
  rfl

/-- Claim C7, amended: whenever some listed timestamp is strictly greater
than the zero initial value, the matcher returns the first entry carrying
the maximal last-modified timestamp — strictly-greater replacement, so
the earliest-encountered entry wins ties; in particular for t1 < t2 < t3
the t3 entry is selected. -/
theorem c7_latest_selected (objs : List (String × Nat)) (h : 0 < maxTs objs) :
    getPartiallyMatchedItem objs = objs.find? (fun o => decide (maxTs objs ≤ o.2)) :=
  scanBest_find objs none 0 h

/-- Claim C7, witness: with timestamps 1 < 2 < 3 the entry stamped 3 is
selected. -/
theorem c7_latest_selected_witness :
    0 < maxTs [("a", 1), ("b", 2), ("c", 3)]
  ∧ getPartiallyMatchedItem [("a", 1), ("b", 2), ("c", 3)] = some ("c", 3) :=
  ⟨by decide, (c7_latest_selected [("a", 1), ("b", 2), ("c", 3)] (by decide)).trans (by decide)⟩

/-- Claim C8: for every tree and every path list, the manifest accumulated
by createTar's loop is exactly the input paths in input order — whatever
the walks return — and the archive's final entry is metadata.json whose
body is the manifest's JSON serialization. -/
theorem c8_manifest_exact_and_last (fuel : Nat) (root : FsNode) (paths : List String) :
    (createTarLoop fuel root paths 0 [] []).2 = paths
  ∧ (createTar fuel root paths).1.getLast? = some (metadataEntry paths)
  ∧ (metadataEntry paths).name = "metadata.json"
  ∧ (metadataEntry paths).content = (metadataJSONStr paths).data := by
  have h2 : (createTarLoop fuel root paths 0 [] []).2 = paths := by
    simpa using createTarLoop_manifest fuel root paths 0 [] []
  refine ⟨h2, ?_, rfl, rfl⟩
  show ((createTarLoop fuel root paths 0 [] []).1 ++
      [metadataEntry (createTarLoop fuel root paths 0 [] []).2]).getLast? = _
  rw [h2, List.getLast?_concat]

/-- Claim C9, counterexample: with the extracted subtree present only for
index 1, the move at index 0 fails (no source), yet index 1 is still
processed — its original path is removed and replaced by the extracted
content — refuting "no index after i is processed". -/
theorem c9_later_index_processed_after_failed_move :
    renameSourceExists c9DestFs (moveSrcKey 0 "a") = false
  ∧ movePathsGo c9DestFs c9MainFs 0 ["a", "b"] = [("b", DestEntry.file "NEW".data)]
  ∧ lookupFlat (movePathsGo c9DestFs c9MainFs 0 ["a", "b"]) "a" = none :=
  ⟨rfl, rfl, rfl⟩

/-- Claim C9, amended: relocation processes manifest indices strictly in
order as a fold of per-index steps — each step removes whatever sits at
the original path and then attempts the move — and a failed move (missing
source, its error discarded at src/cmd/restore.go line 217) leaves just
the removal behind while processing continues with the later indices;
results of earlier steps are never undone, only fed forward.  (A failed
os.RemoveAll, by contrast, is a fatal exit.) -/
theorem c9_relocation_in_order_move_failure_ignored :
    (∀ (destFs main : FlatFs) (i : Nat) (ps : List String),
        movePathsGo destFs main i ps =
          (List.enumFrom i ps).foldl (fun m q => moveStep destFs m q.1 q.2) main)
  ∧ (∀ (destFs m : FlatFs) (j : Nat) (p : String),
        renameSourceExists destFs (moveSrcKey j p) = false →
          moveStep destFs m j p = removeAllFlat m p) := by
  constructor
  · intro destFs main i ps
    induction ps generalizing main i with
    | nil => rfl
    | cons p rest ih => simp [movePathsGo, List.enumFrom, ih]
  · intro destFs m j p hsrc
    simp [moveStep, hsrc]

/-- Claim C9, amended witness: on concrete data the fold equation holds
and a sourceless move step reduces to the bare removal. -/
theorem c9_relocation_witness :
    movePathsGo c9DestFs c9MainFs 0 ["a", "b"] =
      (List.enumFrom 0 ["a", "b"]).foldl (fun m q => moveStep c9DestFs m q.1 q.2) c9MainFs
  ∧ moveStep ([] : FlatFs) c9MainFs 0 "a" = removeAllFlat c9MainFs "a" :=
  ⟨c9_relocation_in_order_move_failure_ignored.1 c9DestFs c9MainFs 0 ["a", "b"],
   c9_relocation_in_order_move_failure_ignored.2 [] c9MainFs 0 "a" (by decide)⟩

/-- Claim C10: extraction opens targets with O_CREATE|O_RDWR and no
truncation, so an entry landing on an existing longer file keeps the old
tail: the result is the stored content followed by the surviving bytes,
and differs from the stored content. -/
theorem c10_no_truncation (fs : FlatFs) (e : TarEntry) (old : List Char)
    (h1 : lookupFlat fs e.name = some (DestEntry.file old))
    (h2 : e.content.length < old.length) :
    lookupFlat (extractCache fs [e]) e.name =
        some (DestEntry.file (e.content ++ old.drop e.content.length))
  ∧ e.content ++ old.drop e.content.length ≠ e.content := by
  constructor
  · show lookupFlat (extractOne fs e) e.name = _
    unfold extractOne
    rw [h1]
    exact lookupFlat_updateFlat fs e.name _
  · intro hEq
    have hLen := congrArg List.length hEq
    simp [List.length_append, List.length_drop] at hLen
    omega

/-- Claim C10, witness: extracting a 3-byte entry over a 6-byte file
leaves the old last three bytes in place. -/
theorem c10_no_truncation_witness :
    lookupFlat (extractCache [("f", DestEntry.file "ABCDEF".data)]
        [{ name := "f", mode := 420, size := 3, typeflag := 0,
           linkname := "", content := "xyz".data }]) "f" =
        some (DestEntry.file ("xyz".data ++ "ABCDEF".data.drop 3))
  ∧ "xyz".data ++ "ABCDEF".data.drop 3 ≠ "xyz".data :=
  c10_no_truncation [("f", DestEntry.file "ABCDEF".data)]
    { name := "f", mode := 420, size := 3, typeflag := 0,
      linkname := "", content := "xyz".data }
    "ABCDEF".data (by decide) (by decide)

end GuruCache
